import Mathlib

/-!
Verification development for the QMT-StockAPI repository.

Shallow embedding of the trading-calendar resolution, retrieval-strategy
selection and instant-query orchestration logic of the repository
(AllKLineData.py, instant_query.py), together with theorems settling the
frozen claims about that logic.

Modelling conventions:
- Calendar dates handled by the source as formatted `YYYY-MM-DD` strings are
  modelled as Lean `String`s: the source itself compares, searches and sorts
  these values as strings, so `String` with its lexicographic order is the
  faithful carrier type.
- Row-level trade dates (pandas `datetime.date` values) are modelled as `Nat`
  day serials; `datetime.date` is a linearly ordered type and only its order
  is consumed by the filtering code.
- The current wall-clock instant (`datetime.now()`) is a record carrying the
  fields the source reads from it: its `%Y-%m-%d` rendering, the rendering of
  the previous calendar day, the weekday index (Monday = 0), and the
  hour/minute/second of day.
- Fallible operations (Python `raise`) are modelled with `Except`.
-/

namespace QMT

/-- Kernel-computable decidability for the lexicographic string order used
throughout (the order of Python string comparison). -/
instance strDecLtQ (s₁ s₂ : String) : Decidable (s₁ < s₂) :=
  decidable_of_iff _ String.lt_iff_toList_lt.symm

/-- Kernel-computable decidability for the string order, `≤` version. -/
instance strDecLeQ (s₁ s₂ : String) : Decidable (s₁ ≤ s₂) :=
  decidable_of_iff _ String.le_iff_toList_le.symm

/-- Python `str.upper()` (ASCII case mapping, the only case the source's
stock-code alphabet exercises). -/
def toUpperQ (s : String) : String := String.mk (s.toList.map Char.toUpper)

/-- Python `str.lower()`. -/
def toLowerQ (s : String) : String := String.mk (s.toList.map Char.toLower)

/-- Python `str.strip()`: drop leading and trailing whitespace. -/
def trimQ (s : String) : String :=
  String.mk (((s.toList.dropWhile Char.isWhitespace).reverse.dropWhile
    Char.isWhitespace).reverse)

/-- Python `str.replace(a, b)` for the single-character patterns the source
uses (`'.'` to `'_'`). -/
def replaceCharQ (s : String) (a b : Char) : String :=
  String.mk (s.toList.map (fun c => if c = a then b else c))

/-- The wall-clock instant `datetime.now()`, carrying exactly the projections
the source code reads from it.  `dateStr` is `now.strftime('%Y-%m-%d')`,
`prevDateStr` is `(now - timedelta(days=1)).strftime('%Y-%m-%d')`,
`weekday` is `now.weekday()` (Monday = 0), and `hour`/`minute`/`second` are
the time-of-day fields. -/
structure Instant where
  dateStr : String
  prevDateStr : String
  weekday : Nat
  hour : Nat
  minute : Nat
  second : Nat

/-- Seconds since midnight of a time-of-day triple; Python compares
`datetime.time` values, which is exactly comparison of this count. -/
def secOfDay (h m s : Nat) : Nat := h * 3600 + m * 60 + s

/-- `is_trading_time` of AllKLineData.py (lines 133-159): weekends are never
trading time; on weekdays the time of day must lie in the closed morning
window 09:15:00-11:30:00 or the closed afternoon window 13:00:00-15:00:00. -/
def is_trading_time (now : Instant) : Bool :=
  if 5 ≤ now.weekday then false
  else
    let t := secOfDay now.hour now.minute now.second
    (secOfDay 9 15 0 ≤ t && t ≤ secOfDay 11 30 0) ||
    (secOfDay 13 0 0 ≤ t && t ≤ secOfDay 15 0 0)

/-- `get_latest_trading_date` of AllKLineData.py (lines 161-215), with the
resolved trading-date list passed explicitly (the source obtains it from the
process-wide cached `get_trading_dates_from_xtdata()`).  Mirrors the source
branch for branch: empty calendar falls back to today's rendering; if today
is a calendar member, trading time returns today, a pre-09:00 instant returns
the entry before today's first index when one exists (else today), and any
other instant returns today; if today is not a member, the first entry of the
reversed calendar that is `<` today is returned, else the calendar's last
entry. -/
def get_latest_trading_date (cal : List String) (now : Instant) : String :=
  if cal.isEmpty then now.dateStr
  else if now.dateStr ∈ cal then
    if is_trading_time now then now.dateStr
    else if now.hour < 9 then
      if 0 < cal.indexOf now.dateStr then
        cal.getD (cal.indexOf now.dateStr - 1) now.dateStr
      else now.dateStr
    else now.dateStr
  else
    match cal.reverse.find? (fun d => decide (d < now.dateStr)) with
    | some d => d
    | none => cal.getLastD now.dateStr

/-- `get_previous_trading_date` of AllKLineData.py (lines 217-250), with the
resolved trading-date list passed explicitly (both this function and the
`get_latest_trading_date` it calls read the same cached list).  Fewer than
two entries falls back to the rendering of `now - 1 day`; otherwise the entry
before the latest trading date's first index is returned (the first entry
itself when that index is 0), and if the latest trading date is not a list
member (`except ValueError`) the second-to-last entry is returned. -/
def get_previous_trading_date (cal : List String) (now : Instant) : String :=
  if cal.length < 2 then now.prevDateStr
  else if get_latest_trading_date cal now ∈ cal then
    if 0 < cal.indexOf (get_latest_trading_date cal now) then
      cal.getD (cal.indexOf (get_latest_trading_date cal now) - 1)
        (get_latest_trading_date cal now)
    else cal.getD 0 (get_latest_trading_date cal now)
  else cal.getD (cal.length - 2) (get_latest_trading_date cal now)

/-- Gregorian civil date (year, month, day) of a day serial counted from
0000-03-01 in the proleptic Gregorian calendar (standard days-to-civil
algorithm); used to model `date.strftime('%Y-%m-%d')` on the dates the
fallback path generates. -/
def civilFromDays (z : Nat) : Nat × Nat × Nat :=
  let era := z / 146097
  let doe := z % 146097
  let yoe := (doe - doe / 1460 + doe / 36524 - doe / 146096) / 365
  let y := yoe + era * 400
  let doy := doe - (365 * yoe + yoe / 4 - yoe / 100)
  let mp := (5 * doy + 2) / 153
  let d := doy - (153 * mp + 2) / 5 + 1
  let m := if mp < 10 then mp + 3 else mp - 9
  (if m ≤ 2 then y + 1 else y, m, d)

/-- Zero-padded decimal rendering of a number, as `strftime` field output. -/
def padNum (width n : Nat) : String :=
  let s := toString n
  String.mk (List.replicate (width - s.length) '0') ++ s

/-- `date.strftime('%Y-%m-%d')` of a day serial. -/
def dayToStr (z : Nat) : String :=
  match civilFromDays z with
  | (y, m, d) => padNum 4 y ++ "-" ++ padNum 2 m ++ "-" ++ padNum 2 d

/-- The day serials visited by `get_fallback_trading_dates` of
AllKLineData.py (lines 122-129): for `i` in `range(days_back + 5)`, keep
`today - i` when it is a weekday.  With the serial epoch 0000-03-01 being a
Wednesday, Python's `weekday()` (Monday = 0) of serial `z` is
`(z + 2) % 7`. -/
def get_fallback_serials (todaySerial days_back : Nat) : List Nat :=
  (List.range (days_back + 5)).filterMap (fun i =>
    if (todaySerial - i + 2) % 7 < 5 then some (todaySerial - i) else none)

/-- `get_fallback_trading_dates` of AllKLineData.py (lines 110-131): render
each kept weekday as `YYYY-MM-DD` and return the list sorted ascending (the
source sorts the formatted strings). -/
def get_fallback_trading_dates (todaySerial days_back : Nat) : List String :=
  List.insertionSort (· ≤ ·) ((get_fallback_serials todaySerial days_back).map dayToStr)

/-- The provider-response normalization of `get_trading_dates_from_xtdata`
(AllKLineData.py lines 84-88): a compact provider entry is reformatted iff it
has exactly 8 characters, by inserting dashes after positions 4 and 6. -/
def fmt8 (s : String) : Option String :=
  match s.toList with
  | [a, b, c, d, e, f, g, h] => some (String.mk [a, b, c, d, '-', e, f, '-', g, h])
  | _ => none

/-- Lines 84-90 of AllKLineData.py: reformat the 8-character provider entries
and sort the result (Python `sorted`, no deduplication). -/
def formatProviderDates (resp : List String) : List String :=
  List.insertionSort (· ≤ ·) (resp.filterMap fmt8)

/-- The process-wide `_trading_dates_cache` keyed by `days_back` (the source
keys by the string `"trading_dates_{days_back}"`, a bijective image of the
number itself). -/
def CalCache := Nat → Option (List String)

/-- The external environment of one `get_trading_dates_from_xtdata` call:
the provider response (`none` models an exception raised anywhere in the
`try` block, `some []` a falsy/empty response) and today's day serial used
by the fallback generator. -/
structure CalEnv where
  provider : Option (List String)
  todaySerial : Nat

/-- `get_trading_dates_from_xtdata` of AllKLineData.py (lines 48-108) as a
state transformer on the cache: on a cache hit return the cached list with no
provider interaction (third component `false`); on a miss consult the
provider (third component `true`), normalize a nonempty response, fall back
to the weekday calendar on an exception or empty response, and cache the
result in every branch. -/
def get_trading_dates_from_xtdata (env : CalEnv) (st : CalCache)
    (days_back : Nat) : List String × CalCache × Bool :=
  match st days_back with
  | some cached => (cached, st, false)
  | none =>
    let result :=
      match env.provider with
      | some resp =>
        if resp.isEmpty then get_fallback_trading_dates env.todaySerial days_back
        else formatProviderDates resp
      | none => get_fallback_trading_dates env.todaySerial days_back
    (result, fun k => if k = days_back then some result else st k, true)

/-- Decimal value of a digit character. -/
def digVal (c : Char) : Nat := c.toNat - 48

/-- Gregorian leap-year rule, as implemented by Python's `datetime`. -/
def isLeapYear (y : Nat) : Bool := (y % 4 == 0 && y % 100 != 0) || y % 400 == 0

/-- Days in a month of the Gregorian calendar. -/
def daysInMonth (y m : Nat) : Nat :=
  if m = 2 then (if isLeapYear y then 29 else 28)
  else if m = 4 ∨ m = 6 ∨ m = 9 ∨ m = 11 then 30
  else 31

/-- Success of `datetime.strptime(s, '%Y-%m-%d')` on a canonical zero-padded
`YYYY-MM-DD` string: ten characters, digits in the date positions, dashes in
positions 5 and 8, year at least 1 (`datetime.MINYEAR`), month 1-12, day
within the month.  (Python's `strptime` additionally tolerates unpadded
fields; the claims only exercise canonical strings.) -/
def isValidDateStr (s : String) : Bool :=
  match s.toList with
  | [a, b, c, d, s1, e, f, s2, g, h] =>
    if s1 = '-' && s2 = '-' && a.isDigit && b.isDigit && c.isDigit &&
        d.isDigit && e.isDigit && f.isDigit && g.isDigit && h.isDigit then
      let y := ((digVal a * 10 + digVal b) * 10 + digVal c) * 10 + digVal d
      let m := digVal e * 10 + digVal f
      let dd := digVal g * 10 + digVal h
      1 ≤ y && 1 ≤ m && m ≤ 12 && 1 ≤ dd && dd ≤ daysInMonth y m
    else false
  | _ => false

/-- Is the character pair one of the exchange suffixes `SH`/`SZ`? -/
def isExch (g h : Char) : Bool := (g = 'S' && h = 'H') || (g = 'S' && h = 'Z')

/-- The separator class `[._-]` of the source's regexes. -/
def isSep (c : Char) : Bool := c = '.' || c = '_' || c = '-'

/-- The anchored regex `^\d{6}\.(SH|SZ)$` of instant_query.py line 60. -/
def matchStdCode : List Char → Bool
  | [a, b, c, d, e, f, dot, g, h] =>
    a.isDigit && b.isDigit && c.isDigit && d.isDigit && e.isDigit &&
      f.isDigit && dot = '.' && isExch g h
  | _ => false

/-- The anchored regex `^(\d{6})[._-]?(SH|SZ)$` of instant_query.py line 64,
returning the two capture groups. -/
def matchD6Exch : List Char → Option (String × String)
  | [a, b, c, d, e, f, g, h] =>
    if a.isDigit && b.isDigit && c.isDigit && d.isDigit && e.isDigit &&
        f.isDigit && isExch g h then
      some (String.mk [a, b, c, d, e, f], String.mk [g, h])
    else none
  | [a, b, c, d, e, f, s, g, h] =>
    if a.isDigit && b.isDigit && c.isDigit && d.isDigit && e.isDigit &&
        f.isDigit && isSep s && isExch g h then
      some (String.mk [a, b, c, d, e, f], String.mk [g, h])
    else none
  | _ => none

/-- The anchored regex `^(SH|SZ)[._-]?(\d{6})$` of instant_query.py line 69,
returning the two capture groups. -/
def matchExchD6 : List Char → Option (String × String)
  | [g, h, a, b, c, d, e, f] =>
    if isExch g h && a.isDigit && b.isDigit && c.isDigit && d.isDigit &&
        e.isDigit && f.isDigit then
      some (String.mk [g, h], String.mk [a, b, c, d, e, f])
    else none
  | [g, h, s, a, b, c, d, e, f] =>
    if isExch g h && isSep s && a.isDigit && b.isDigit && c.isDigit &&
        d.isDigit && e.isDigit && f.isDigit then
      some (String.mk [g, h], String.mk [a, b, c, d, e, f])
    else none
  | _ => none

/-- The anchored regex `^\d{6}$` of instant_query.py line 74. -/
def isDigits6 : List Char → Bool
  | [a, b, c, d, e, f] =>
    a.isDigit && b.isDigit && c.isDigit && d.isDigit && e.isDigit && f.isDigit
  | _ => false

/-- `normalize_stock_code` of instant_query.py (lines 48-77): empty input is
rejected; the input is stripped and uppercased; a standard `NNNNNN.EX` code
is returned as is; `NNNNNN[._-]?EX` and `EX[._-]?NNNNNN` are rebuilt as
`NNNNNN.EX`; a bare six-digit code is rejected with the dedicated
missing-exchange error; anything else is rejected as invalid. -/
def normalize_stock_code (code : String) : Except String String :=
  if code = "" then .error "empty stock code"
  else
    let c := toUpperQ (trimQ code)
    if matchStdCode c.toList then .ok c
    else
      match matchD6Exch c.toList with
      | some (ds, ex) => .ok (ds ++ "." ++ ex)
      | none =>
        match matchExchD6 c.toList with
        | some (ex, ds) => .ok (ds ++ "." ++ ex)
        | none =>
          if isDigits6 c.toList then .error "stock code missing exchange suffix"
          else .error "invalid stock code format"

/-- The `original` component returned by `parse_date_param` (AllKLineData.py
lines 13-42): the symbolic tokens, or the validated explicit date string. -/
inductive Orig where
  | today
  | yesterday
  | expl (s : String)
deriving DecidableEq

/-- `parse_date_param` of AllKLineData.py (lines 13-42): `None` passes
through; the input is lowercased and stripped; `today`/`yesterday` resolve
through the trading calendar; anything else must parse as a date and is
passed through unchanged, else `ValueError`. -/
def parse_date_param (cal : List String) (now : Instant) (x : Option String) :
    Except String (Option String × Option Orig) :=
  match x with
  | none => .ok (none, none)
  | some s0 =>
    let s := trimQ (toLowerQ s0)
    if s = "today" then
      .ok (some (get_latest_trading_date cal now), some .today)
    else if s = "yesterday" then
      .ok (some (get_previous_trading_date cal now), some .yesterday)
    else if isValidDateStr s then .ok (some s, some (.expl s))
    else .error "invalid date format"

/-- The three `xtdata.get_market_data_ex` call shapes of
`KLineDataCollector.get_kline_data` (AllKLineData.py lines 344-374):
latest-N by count (symbolic dates), explicit range, or the default
count-driven query. -/
inductive FetchMode where
  | latestN (count : Int)
  | rangeQ (startD endD : String)
  | byCount (count : Int)
deriving DecidableEq

/-- `periods_config[period]["count"]` with the source's default
`{"count": -1}` for unknown periods (AllKLineData.py lines 270-282, 300). -/
def periods_count (period : String) : Int :=
  if period = "1m" then 500
  else if period = "5m" then 500
  else if period = "15m" then 300
  else if period = "30m" then 200
  else if period = "60m" then 100
  else if period = "1d" then -1
  else if period = "1w" then -1
  else if period = "1M" then -1
  else -1

/-- The fetch-strategy selection of `get_kline_data` (AllKLineData.py lines
304-313 and 344-374): parse both date parameters; a symbolic token on either
side selects the latest-N count query (the period count when positive, else
1000); otherwise a fully explicit custom range selects the range query; any
other combination falls through to the default count query. -/
def select_fetch (cal : List String) (now : Instant) (period : String)
    (start_date end_date : Option String) : Except String FetchMode :=
  match parse_date_param cal now start_date with
  | .error e => .error e
  | .ok (actualS, origS) =>
    match parse_date_param cal now end_date with
    | .error e => .error e
    | .ok (actualE, origE) =>
      let count := periods_count period
      if origS = some .today ∨ origS = some .yesterday ∨
          origE = some .today ∨ origE = some .yesterday then
        .ok (.latestN (if 0 < count then count else 1000))
      else if (actualS ≠ none ∨ actualE ≠ none) ∧
          actualS.isSome ∧ actualE.isSome then
        .ok (.rangeQ (actualS.getD "") (actualE.getD ""))
      else .ok (.byCount count)

/-- One fetched candle row: its trade date (`df['datetime'].dt.date`, an
ordered value modelled as a day serial) plus an opaque payload standing for
the remaining columns. -/
structure Row where
  date : Nat
  payload : Nat
deriving DecidableEq

/-- `sorted(df['datetime'].dt.date.unique())` of
`_filter_by_special_date` (AllKLineData.py line 464): the distinct row
dates, sorted ascending. -/
def availableDates (df : List Row) : List Nat :=
  List.insertionSort (· ≤ ·) (df.map Row.date).dedup

/-- Resolution of the symbolic tokens against the fetched rows
(AllKLineData.py lines 470-528), for a nonempty `availableDates`:
`today` maps to `available_dates[-1]`, `yesterday` to `available_dates[-2]`
when it exists.  The result is `none` when the `yesterday` start token
cannot be resolved (the early `return df.iloc[0:0]` paths); otherwise it is
the pair of optional start/end date bounds.  An unresolvable `yesterday`
end token merely leaves the end bound absent. -/
def resolveSpecialBounds (df : List Row) (origS origE : Option Orig) :
    Option (Option Nat × Option Nat) :=
  let avail := availableDates df
  let todayT := avail.getLastD 0
  let yestT : Option Nat :=
    if 2 ≤ avail.length then some (avail.getD (avail.length - 2) 0) else none
  let boundS : Option (Option Nat) :=
    match origS with
    | some .today => some (some todayT)
    | some .yesterday =>
      match yestT with
      | some y => some (some y)
      | none => none
    | _ => some none
  match boundS with
  | none => none
  | some aS =>
    let aE : Option Nat :=
      match origE with
      | some .today => some todayT
      | some .yesterday => yestT
      | _ => none
    some (aS, aE)

/-- Keep the rows dated on or after the resolved start bound
(AllKLineData.py lines 531-533). -/
def applyStartFilter (df : List Row) (aS : Option Nat) : List Row :=
  match aS with
  | some a => df.filter (fun r => decide (a ≤ r.date))
  | none => df

/-- Keep the rows dated on or before the resolved end bound
(AllKLineData.py lines 535-537). -/
def applyEndFilter (df : List Row) (aE : Option Nat) : List Row :=
  match aE with
  | some b => df.filter (fun r => decide (r.date ≤ b))
  | none => df

/-- `_filter_by_special_date` of AllKLineData.py (lines 452-547): rows
without any date mean nothing to filter (the source returns `df`, which is
then necessarily empty); an unresolvable `yesterday` start token returns the
empty frame with the column structure kept; otherwise the start and end
bounds are applied in order. -/
def filter_by_special_date (df : List Row) (origS origE : Option Orig) :
    List Row :=
  if (availableDates df).isEmpty then df
  else
    match resolveSpecialBounds df origS origE with
    | none => []
    | some (aS, aE) => applyEndFilter (applyStartFilter df aS) aE

/-- A real-time quote snapshot: the dict `get_real_time_price` builds always
carries `current_price`; the payload is opaque to the orchestrator. -/
structure RTQuote where
  current_price : Int
deriving DecidableEq

/-- The value produced by one of the two futures of
`perform_instant_update`: the kline task returns `True`, the real-time task
returns a quote dict or `None`. -/
inductive TaskVal where
  | klineDone
  | rt (q : Option RTQuote)

/-- The result dict of `perform_instant_update` (instant_query.py lines
136-144), with previews modelled as the opaque row payloads read back per
file. -/
structure InstantResult where
  success : Bool
  stock_code : String
  kline_files : List (String × String)
  kline_preview : List (String × List Nat)
  realtime_file : Option String
  realtime_data : Option RTQuote
  message : String
deriving DecidableEq

/-- The storage environment of `perform_instant_update`: re-reading the tail
preview rows of a persisted file (`_load_preview_rows`). -/
structure IEnv where
  readPreview : String → List Nat

/-- `_expected_kline_filename` of instant_query.py (lines 80-85). -/
def _expected_kline_filename (stock_code period dividend_type : String) :
    String :=
  let stock_name := replaceCharQ stock_code '.' '_'
  let filename_period := if period = "1M" then "1month" else period
  stock_name ++ "_" ++ filename_period ++ "_" ++ dividend_type ++ "_kline.csv"

/-- The `for fut in as_completed(tasks): value = fut.result()` aggregation
loop of `perform_instant_update` (instant_query.py lines 177-182), over the
futures in completion order: the first raising future re-raises its
exception out of the loop; a completed real-time future carrying a quote
dict (which always has `current_price`) is recorded as the real-time
datum. -/
def aggregate_futures (tasks : List (Except String TaskVal)) :
    Except String (Option RTQuote) :=
  tasks.foldl (fun acc t =>
    match acc with
    | .error e => .error e
    | .ok cur =>
      match t with
      | .error e => .error e
      | .ok (.rt (some q)) => .ok (some q)
      | .ok _ => .ok cur) (.ok none)

/-- `perform_instant_update` of instant_query.py (lines 107-202).  The
outcomes of the two worker-thread bodies are passed as parameters
(`klineOutcome` for `_collect_kline`, `realtimeOutcome` for
`_collect_realtime`; `Except.error` models the body raising), and
`realtimeFirst` fixes the nondeterministic `as_completed` completion order.
Symbol validation runs before the `try` block, so its failure propagates as
an error; inside the block, a raising future makes the `except` handler
report failure with the previews left unfilled, while the expected filename
map (populated before the `try`) is always present. -/
def perform_instant_update (env : IEnv) (stock_code : String)
    (dividend_type : String) (include_periods : Option (List String))
    (include_realtime : Bool) (klineOutcome : Except String Unit)
    (realtimeOutcome : Except String (Option RTQuote)) (realtimeFirst : Bool) :
    Except String InstantResult :=
  match normalize_stock_code stock_code with
  | .error e => .error e
  | .ok normalized =>
    let default_periods := ["1m", "5m", "15m", "30m", "60m", "1d", "1w", "1M"]
    let periods := include_periods.getD default_periods
    let kline_files := periods.map
      (fun p => (p, _expected_kline_filename normalized p dividend_type))
    let tasksBase : List (Except String TaskVal) :=
      (if periods.isEmpty then []
       else [klineOutcome.map (fun _ => TaskVal.klineDone)]) ++
      (if include_realtime then [realtimeOutcome.map TaskVal.rt] else [])
    let tasks := if realtimeFirst then tasksBase.reverse else tasksBase
    match aggregate_futures tasks with
    | .error e =>
      .ok { success := false, stock_code := normalized,
            kline_files := kline_files, kline_preview := [],
            realtime_file := none, realtime_data := none,
            message := "instant update failed: " ++ e }
    | .ok rtv =>
      .ok { success := true, stock_code := normalized,
            kline_files := kline_files,
            kline_preview := kline_files.map
              (fun pf => (pf.1, env.readPreview pf.2)),
            realtime_file := if include_realtime then
                some (replaceCharQ normalized '.' '_' ++
                  "_real_time_price.json")
              else none,
            realtime_data := rtv,
            message := "instant update done" }

/-- The `success` flag of a `perform_instant_update` outcome. -/
def result_success : Except String InstantResult → Bool
  | .ok r => r.success
  | .error _ => false

/-- The `kline_preview` map of a `perform_instant_update` outcome. -/
def result_preview : Except String InstantResult → List (String × List Nat)
  | .ok r => r.kline_preview
  | .error _ => []

/-- The `realtime_data` field of a `perform_instant_update` outcome. -/
def result_rtdata : Except String InstantResult → Option RTQuote
  | .ok r => r.realtime_data
  | .error _ => none

section SortedLemmas

variable {α : Type*} [LinearOrder α] [BEq α] [LawfulBEq α]

/-- In a strictly sorted list, an element with something smaller before it in
the order cannot sit at index 0. -/
lemma indexOf_pos_of_exists_lt {l : List α} (hs : l.Sorted (· < ·)) {a x : α}
    (ha : a ∈ l) (hx : x ∈ l) (hlt : x < a) : 0 < l.indexOf a := by
  cases l with
  | nil => cases ha
  | cons b t =>
    rw [List.indexOf_cons]
    cases hba : b == a with
    | true =>
      exfalso
      have hb : b = a := eq_of_beq hba
      subst hb
      rcases List.mem_cons.mp hx with h | h
      · exact absurd hlt (by rw [h]; exact lt_irrefl b)
      · exact absurd ((List.sorted_cons.mp hs).1 x h) (not_lt.mpr hlt.le)
    | false => simp

omit [LinearOrder α] in
/-- If an element of a list has index 0, it is the head. -/
lemma eq_cons_of_indexOf_zero {l : List α} {a : α} (ha : a ∈ l)
    (h0 : l.indexOf a = 0) : ∃ t, l = a :: t := by
  cases l with
  | nil => cases ha
  | cons b t =>
    rw [List.indexOf_cons] at h0
    cases hba : b == a with
    | true => exact ⟨t, by rw [eq_of_beq hba]⟩
    | false => rw [hba] at h0; simp at h0

omit [LinearOrder α] [BEq α] [LawfulBEq α] in
/-- A list containing two distinct elements has length at least two. -/
lemma two_mem_le_length {l : List α} {a b : α} (ha : a ∈ l) (hb : b ∈ l)
    (hab : a ≠ b) : 2 ≤ l.length := by
  cases l with
  | nil => cases ha
  | cons x t =>
    cases t with
    | nil =>
      simp only [List.mem_singleton] at ha hb
      exact absurd (ha.trans hb.symm) hab
    | cons y u => simp [List.length]

/-- In a strictly sorted list, the entry just before an element's index is
the greatest list element strictly below that element. -/
lemma sorted_pred_spec {l : List α} (hs : l.Sorted (· < ·)) {a : α} (d : α)
    (ha : a ∈ l) (hpos : 0 < l.indexOf a) :
    l.getD (l.indexOf a - 1) d ∈ l ∧ l.getD (l.indexOf a - 1) d < a ∧
      ∀ x ∈ l, x < a → x ≤ l.getD (l.indexOf a - 1) d := by
  induction l with
  | nil => cases ha
  | cons b t ih =>
    rw [List.indexOf_cons] at hpos ⊢
    cases hba : b == a with
    | true => simp only [hba, cond_true] at hpos; omega
    | false =>
      simp only [hba, cond_false] at hpos ⊢
      have hat : a ∈ t := by
        rcases List.mem_cons.mp ha with h | h
        · exact absurd h.symm (ne_of_beq_false hba)
        · exact h
      have hsb := List.sorted_cons.mp hs
      rcases Nat.eq_zero_or_pos (t.indexOf a) with hz | hp
      · rw [hz]
        simp only [Nat.zero_add, Nat.add_sub_cancel, List.getD_cons_zero]
        obtain ⟨t', ht'⟩ := eq_cons_of_indexOf_zero hat hz
        refine ⟨List.mem_cons_self _ _, hsb.1 a hat, ?_⟩
        intro x hx hxa
        rcases List.mem_cons.mp hx with h | h
        · exact le_of_eq h
        · subst ht'
          rcases List.mem_cons.mp h with h2 | h2
          · exact absurd hxa (by rw [h2]; exact lt_irrefl a)
          · exact absurd hxa (not_lt.mpr ((List.sorted_cons.mp hsb.2).1 x h2).le)
      · have ihres := ih hsb.2 hat hp
        rw [Nat.add_sub_cancel, (Nat.succ_pred_eq_of_pos hp).symm,
          List.getD_cons_succ]
        obtain ⟨h1, h2, h3⟩ := ihres
        refine ⟨List.mem_cons_of_mem _ h1, h2, ?_⟩
        intro x hx hxa
        rcases List.mem_cons.mp hx with h | h
        · exact le_of_lt (by rw [h]; exact hsb.1 _ h1)
        · exact h3 x h hxa

omit [BEq α] [LawfulBEq α] in
/-- `find?` on a strictly descending list returns the greatest element
satisfying a downward-compatible bound `· < c` (the predicate is abstract so
the lemma is independent of the decidability instance used inside it). -/
lemma find?_sorted_gt_spec {m : List α} (hm : m.Sorted (· > ·)) (c : α)
    (p : α → Bool) (hp : ∀ x, p x = true ↔ x < c) :
    ∀ r, m.find? p = some r →
      r ∈ m ∧ r < c ∧ ∀ x ∈ m, x < c → x ≤ r := by
  induction m with
  | nil => intro r h; simp at h
  | cons a t ih =>
    intro r h
    rw [List.find?_cons] at h
    have hst := List.sorted_cons.mp hm
    cases hd : p a with
    | true =>
      rw [hd] at h
      obtain rfl : a = r := by simpa using h
      refine ⟨List.mem_cons_self _ _, (hp a).mp hd, ?_⟩
      intro x hx _
      rcases List.mem_cons.mp hx with h1 | h1
      · exact le_of_eq h1
      · exact (hst.1 x h1).le
    | false =>
      rw [hd] at h
      obtain ⟨h1, h2, h3⟩ := ih hst.2 r h
      refine ⟨List.mem_cons_of_mem _ h1, h2, ?_⟩
      intro x hx hxc
      rcases List.mem_cons.mp hx with h4 | h4
      · exact absurd ((hp a).mpr (h4 ▸ hxc)) (by simp [hd])
      · exact h3 x h4 hxc

omit [LinearOrder α] [BEq α] [LawfulBEq α] in
/-- `getLastD` of a list is a member unless the list is empty. -/
lemma getLastD_mem_or (l : List α) (d : α) : l.getLastD d ∈ l ∨ l = [] := by
  induction l generalizing d with
  | nil => exact Or.inr rfl
  | cons a t ih =>
    rw [List.getLastD_cons]
    rcases ih a with h | h
    · exact Or.inl (List.mem_cons_of_mem _ h)
    · rw [h]; exact Or.inl (by simp [List.getLastD])

omit [BEq α] [LawfulBEq α] in
/-- Every member of a `≤`-sorted list is at most its last element. -/
lemma mem_le_getLastD {l : List α} (hs : l.Sorted (· ≤ ·)) {x : α}
    (hx : x ∈ l) (d : α) : x ≤ l.getLastD d := by
  induction l generalizing d with
  | nil => cases hx
  | cons a t ih =>
    rw [List.getLastD_cons]
    have hst := List.sorted_cons.mp hs
    rcases List.mem_cons.mp hx with h | h
    · subst h
      rcases getLastD_mem_or t x with h2 | h2
      · exact hst.1 _ h2
      · rw [h2]; simp [List.getLastD]
    · exact ih hst.2 h a

end SortedLemmas

/-- Claim C4: TODAY resolution.  For every reference instant `now` and every
resolved (hence strictly ascending, nonempty) trading calendar: if today's
date is in the calendar, `get_latest_trading_date` returns today when the
trading session is active; when the session is inactive and `now.hour < 9`
and a strictly earlier calendar entry exists, it returns the entry
immediately preceding today (the greatest calendar entry below today); and it
returns today otherwise.  If today is not in the calendar it returns the
latest calendar date strictly less than today, or the calendar's latest entry
when no such date exists. -/
theorem claim_C4 (cal : List String) (now : Instant)
    (hs : cal.Sorted (· < ·)) (hne : cal ≠ []) :
    (now.dateStr ∈ cal →
      (is_trading_time now = true →
        get_latest_trading_date cal now = now.dateStr) ∧
      (is_trading_time now = false → 9 ≤ now.hour →
        get_latest_trading_date cal now = now.dateStr) ∧
      (is_trading_time now = false → now.hour < 9 →
        ((∃ x ∈ cal, x < now.dateStr) →
          get_latest_trading_date cal now ∈ cal ∧
          get_latest_trading_date cal now < now.dateStr ∧
          ∀ x ∈ cal, x < now.dateStr → x ≤ get_latest_trading_date cal now) ∧
        ((∀ x ∈ cal, ¬ x < now.dateStr) →
          get_latest_trading_date cal now = now.dateStr))) ∧
    (now.dateStr ∉ cal →
      ((∃ x ∈ cal, x < now.dateStr) →
        get_latest_trading_date cal now ∈ cal ∧
        get_latest_trading_date cal now < now.dateStr ∧
        ∀ x ∈ cal, x < now.dateStr → x ≤ get_latest_trading_date cal now) ∧
      ((∀ x ∈ cal, ¬ x < now.dateStr) →
        get_latest_trading_date cal now = cal.getLastD now.dateStr)) := by
  have hemp : ¬ (cal.isEmpty = true) := by
    simpa [List.isEmpty_iff] using hne
  constructor
  · intro hmem
    refine ⟨?_, ?_, ?_⟩
    · intro htt
      unfold get_latest_trading_date
      rw [if_neg hemp, if_pos hmem, if_pos htt]
    · intro htf hh9
      unfold get_latest_trading_date
      rw [if_neg hemp, if_pos hmem, if_neg (by simp [htf]),
        if_neg (by omega)]
    · intro htf hlt9
      constructor
      · rintro ⟨x, hx, hxlt⟩
        have hpos := indexOf_pos_of_exists_lt hs hmem hx hxlt
        have hspec := sorted_pred_spec hs now.dateStr hmem hpos
        unfold get_latest_trading_date
        rw [if_neg hemp, if_pos hmem, if_neg (by simp [htf]), if_pos hlt9,
          if_pos hpos]
        exact hspec
      · intro hnone
        unfold get_latest_trading_date
        rw [if_neg hemp, if_pos hmem, if_neg (by simp [htf]), if_pos hlt9,
          if_neg ?_]
        intro hpos
        have hspec := sorted_pred_spec hs now.dateStr hmem hpos
        exact hnone _ hspec.1 hspec.2.1
  · intro hnm
    have hrev : cal.reverse.Sorted (· > ·) := List.pairwise_reverse.mpr hs
    constructor
    · rintro ⟨x, hx, hxlt⟩
      cases hf : cal.reverse.find? (fun d => decide (d < now.dateStr)) with
      | none =>
        exact absurd (decide_eq_true hxlt)
          (List.find?_eq_none.mp hf x (List.mem_reverse.mpr hx))
      | some r =>
        obtain ⟨h1, h2, h3⟩ := find?_sorted_gt_spec hrev now.dateStr
          (fun d => decide (d < now.dateStr))
          (fun x => decide_eq_true_iff) r hf
        have hres : get_latest_trading_date cal now = r := by
          unfold get_latest_trading_date
          rw [if_neg hemp, if_neg hnm, hf]
        rw [hres]
        exact ⟨List.mem_reverse.mp h1, h2,
          fun y hy hylt => h3 y (List.mem_reverse.mpr hy) hylt⟩
    · intro hnone
      have hf : cal.reverse.find? (fun d => decide (d < now.dateStr)) = none :=
        List.find?_eq_none.mpr (fun x hx => by
          simpa using hnone x (List.mem_reverse.mp hx))
      unfold get_latest_trading_date
      rw [if_neg hemp, if_neg hnm, hf]

/-- Witness for claim C4: a concrete strictly ascending two-entry calendar and
an instant inside the afternoon trading window of its second day. -/
theorem claim_C4_witness :
    get_latest_trading_date ["2025-01-06", "2025-01-07"]
      ⟨"2025-01-07", "2025-01-06", 1, 14, 0, 0⟩ = "2025-01-07" :=
  ((claim_C4 ["2025-01-06", "2025-01-07"]
      ⟨"2025-01-07", "2025-01-06", 1, 14, 0, 0⟩
      (by decide) (by decide)).1 (by decide)).1 (by decide)

/-- Claim C5: YESTERDAY is TODAY's calendar predecessor.  For every instant
`now` and strictly ascending resolved calendar, if `t = get_latest_trading_date
cal now` is a calendar member with an immediately preceding calendar entry `p`
(the greatest calendar entry strictly below `t`), then
`get_previous_trading_date` returns `p`. -/
theorem claim_C5 (cal : List String) (now : Instant) (p : String)
    (hs : cal.Sorted (· < ·))
    (ht : get_latest_trading_date cal now ∈ cal)
    (hp : p ∈ cal ∧ p < get_latest_trading_date cal now ∧
      ∀ d ∈ cal, d < get_latest_trading_date cal now → d ≤ p) :
    get_previous_trading_date cal now = p := by
  obtain ⟨hp1, hp2, hp3⟩ := hp
  have hlen : ¬ (cal.length < 2) := by
    have := two_mem_le_length hp1 ht hp2.ne
    omega
  have hpos : 0 < cal.indexOf (get_latest_trading_date cal now) :=
    indexOf_pos_of_exists_lt hs ht hp1 hp2
  have hspec := sorted_pred_spec hs (get_latest_trading_date cal now) ht hpos
  have heq : cal.getD (cal.indexOf (get_latest_trading_date cal now) - 1)
      (get_latest_trading_date cal now) = p :=
    le_antisymm (hp3 _ hspec.1 hspec.2.1) (hspec.2.2 p hp1 hp2)
  unfold get_previous_trading_date
  rw [if_neg hlen, if_pos ht, if_pos hpos]
  exact heq

/-- Witness for claim C5: concrete two-entry calendar; during the session on
2025-01-07 TODAY resolves to 2025-01-07 and YESTERDAY to 2025-01-06. -/
theorem claim_C5_witness :
    get_previous_trading_date ["2025-01-06", "2025-01-07"]
      ⟨"2025-01-07", "2025-01-06", 1, 14, 0, 0⟩ = "2025-01-06" :=
  claim_C5 ["2025-01-06", "2025-01-07"]
    ⟨"2025-01-07", "2025-01-06", 1, 14, 0, 0⟩ "2025-01-06"
    (by decide) (by decide) ⟨by decide, by decide, by decide⟩

/-- Counterexample for claim C2: with a resolved calendar of exactly one
entry, `get_previous_trading_date` does not return that entry — the
`len(trading_dates) < 2` guard returns the plain calendar day before `now`
(here 2025-01-07) instead of the calendar's single entry 2025-01-06. -/
theorem claim_C2_counterexample :
    get_previous_trading_date ["2025-01-06"]
        ⟨"2025-01-08", "2025-01-07", 3, 10, 0, 0⟩ = "2025-01-07" ∧
      get_previous_trading_date ["2025-01-06"]
        ⟨"2025-01-08", "2025-01-07", 3, 10, 0, 0⟩ ≠ "2025-01-06" := by
  decide

/-- Claim C2, amended: for every process state in which the resolved trading
calendar contains exactly one entry, `get_previous_trading_date` ignores the
calendar and returns the rendering of the calendar day immediately before
`now` (`now - 1 day`), not the calendar's single entry and not an error. -/
theorem claim_C2_amended (cal : List String) (now : Instant)
    (h : cal.length = 1) :
    get_previous_trading_date cal now = now.prevDateStr := by
  unfold get_previous_trading_date
  rw [if_pos (by omega)]

/-- Witness for the amended claim C2 at a concrete singleton calendar. -/
theorem claim_C2_witness :
    get_previous_trading_date ["2025-01-06"]
      ⟨"2025-01-08", "2025-01-07", 3, 10, 0, 0⟩ = "2025-01-07" :=
  claim_C2_amended ["2025-01-06"]
    ⟨"2025-01-08", "2025-01-07", 3, 10, 0, 0⟩ (by decide)

/-- Claim C9: idempotent calendar cache.  For any cache state and any two
environments (the provider and clock may even have changed between the
calls), a second `get_trading_dates_from_xtdata` call with the same
`days_back` returns exactly the sequence the first call returned, and it
performs no provider interaction. -/
theorem claim_C9 (env env2 : CalEnv) (st : CalCache) (db : Nat) :
    (get_trading_dates_from_xtdata env2
        (get_trading_dates_from_xtdata env st db).2.1 db).1 =
      (get_trading_dates_from_xtdata env st db).1 ∧
    (get_trading_dates_from_xtdata env2
        (get_trading_dates_from_xtdata env st db).2.1 db).2.2 = false := by
  cases h : st db with
  | some cached => simp [get_trading_dates_from_xtdata, h]
  | none => simp [get_trading_dates_from_xtdata, h]

/-- Counterexample for claim C6: the provider path sorts but does not
deduplicate or validate — a provider response repeating the 8-character
entry `00000000` yields the duplicated, non-strictly-sorted, invalid entry
`0000-00-00` twice. -/
theorem claim_C6_counterexample :
    (get_trading_dates_from_xtdata ⟨some ["00000000", "00000000"], 739000⟩
        (fun _ => none) 30).1 = ["0000-00-00", "0000-00-00"] ∧
    ¬ (get_trading_dates_from_xtdata ⟨some ["00000000", "00000000"], 739000⟩
        (fun _ => none) 30).1.Nodup ∧
    ¬ (get_trading_dates_from_xtdata ⟨some ["00000000", "00000000"], 739000⟩
        (fun _ => none) 30).1.Sorted (· < ·) ∧
    isValidDateStr "0000-00-00" = false := by
  refine ⟨?_, ?_, ?_, ?_⟩ <;> decide

/-- Claim C6, amended.  On a cache miss the returned sequence is the
normalized provider response (nonempty provider path) or the weekday
fallback.  The provider path returns a `≤`-sorted sequence whose elements
are exactly dash-reformatted 8-character provider entries; it is strictly
ascending (duplicate-free) whenever the reformatted provider entries are
duplicate-free, but duplicates and invalid dates in the provider response
survive.  The fallback path generates strictly descending, duplicate-free
weekday serials (Monday-Friday) and returns their renderings sorted
ascending. -/
theorem claim_C6_amended :
    (∀ (env : CalEnv) (st : CalCache) (db : Nat) (resp : List String),
      st db = none → env.provider = some resp → resp ≠ [] →
      (get_trading_dates_from_xtdata env st db).1 = formatProviderDates resp) ∧
    (∀ (env : CalEnv) (st : CalCache) (db : Nat),
      st db = none → env.provider = none →
      (get_trading_dates_from_xtdata env st db).1 =
        get_fallback_trading_dates env.todaySerial db) ∧
    (∀ resp : List String, (formatProviderDates resp).Sorted (· ≤ ·)) ∧
    (∀ (resp : List String) (x : String), x ∈ formatProviderDates resp →
      ∃ r ∈ resp, fmt8 r = some x) ∧
    (∀ resp : List String, (resp.filterMap fmt8).Nodup →
      (formatProviderDates resp).Sorted (· < ·)) ∧
    (∀ t db : Nat, db + 5 ≤ t →
      (get_fallback_serials t db).reverse.Sorted (· < ·) ∧
      (get_fallback_serials t db).Nodup) ∧
    (∀ t db s : Nat, s ∈ get_fallback_serials t db → (s + 2) % 7 < 5) ∧
    (∀ t db : Nat, (get_fallback_trading_dates t db).Sorted (· ≤ ·)) ∧
    (∀ (t db : Nat) (x : String), x ∈ get_fallback_trading_dates t db →
      ∃ s ∈ get_fallback_serials t db, dayToStr s = x) := by
  refine ⟨?_, ?_, ?_, ?_, ?_, ?_, ?_, ?_, ?_⟩
  · intro env st db resp h1 h2 h3
    simp [get_trading_dates_from_xtdata, h1, h2, h3]
  · intro env st db h1 h2
    simp [get_trading_dates_from_xtdata, h1, h2]
  · intro resp
    exact List.sorted_insertionSort _ _
  · intro resp x hx
    exact List.mem_filterMap.mp
      ((List.perm_insertionSort (· ≤ ·) (resp.filterMap fmt8)).mem_iff.mp hx)
  · intro resp hnd
    exact List.Sorted.lt_of_le (List.sorted_insertionSort _ _)
      ((List.perm_insertionSort (· ≤ ·) (resp.filterMap fmt8)).nodup_iff.mpr hnd)
  · intro t db hdb
    have hgt : (get_fallback_serials t db).Pairwise (· > ·) := by
      refine List.pairwise_filterMap.mpr ?_
      refine (List.pairwise_lt_range (db + 5)).imp_of_mem ?_
      intro i j hi hj hij a ha b hb
      have hj5 : j < db + 5 := List.mem_range.mp hj
      have ha2 : a = t - i := by
        by_cases hc : (t - i + 2) % 7 < 5 <;> simp [hc] at ha
        exact ha.symm
      have hb2 : b = t - j := by
        by_cases hc : (t - j + 2) % 7 < 5 <;> simp [hc] at hb
        exact hb.symm
      rw [ha2, hb2]
      omega
    constructor
    · exact List.pairwise_reverse.mpr hgt
    · exact hgt.imp (fun h => ne_of_gt h)
  · intro t db s hs
    obtain ⟨i, _, hf⟩ := List.mem_filterMap.mp hs
    by_cases hc : (t - i + 2) % 7 < 5 <;> simp [hc] at hf
    rw [← hf]
    exact hc
  · intro t db
    exact List.sorted_insertionSort _ _
  · intro t db x hx
    have hx2 := (List.perm_insertionSort (· ≤ ·)
      ((get_fallback_serials t db).map dayToStr)).mem_iff.mp hx
    obtain ⟨s, hs, hsx⟩ := List.mem_map.mp hx2
    exact ⟨s, hs, hsx⟩

/-- Witness for the amended claim C6: a concrete provider response is
normalized and sorted, and a concrete fallback serial window is strictly
descending and duplicate-free. -/
theorem claim_C6_witness :
    (get_trading_dates_from_xtdata ⟨some ["20240102", "20240101"], 739000⟩
        (fun _ => none) 30).1 = ["2024-01-01", "2024-01-02"] ∧
    ((get_fallback_serials 739000 1).reverse.Sorted (· < ·) ∧
      (get_fallback_serials 739000 1).Nodup) := by
  constructor
  · rw [claim_C6_amended.1 ⟨some ["20240102", "20240101"], 739000⟩
      (fun _ => none) 30 ["20240102", "20240101"] rfl rfl (by decide)]
    decide
  · exact claim_C6_amended.2.2.2.2.2.1 739000 1 (by decide)

/-- Claim C7: symbol normalization equivalence.  All five textual forms of
the same symbol normalize to `600689.SH`, and a bare six-digit code fails
with the dedicated missing-exchange error rather than a guessed exchange. -/
theorem claim_C7 :
    normalize_stock_code "600689.SH" = .ok "600689.SH" ∧
    normalize_stock_code "600689SH" = .ok "600689.SH" ∧
    normalize_stock_code "SH600689" = .ok "600689.SH" ∧
    normalize_stock_code "600689_sh" = .ok "600689.SH" ∧
    normalize_stock_code "600689-SH" = .ok "600689.SH" ∧
    normalize_stock_code "600689" = .error "stock code missing exchange suffix" := by
  refine ⟨?_, ?_, ?_, ?_, ?_, ?_⟩ <;> rfl

/-- The distinct-date index of a row set is `≤`-sorted. -/
lemma availableDates_sorted (df : List Row) :
    (availableDates df).Sorted (· ≤ ·) :=
  List.sorted_insertionSort _ _

/-- Every row's date occurs in the distinct-date index. -/
lemma mem_availableDates {df : List Row} {r : Row} (hr : r ∈ df) :
    r.date ∈ availableDates df :=
  (List.perm_insertionSort (· ≤ ·) _).mem_iff.mpr
    (List.mem_dedup.mpr (List.mem_map_of_mem _ hr))

/-- A row set with an empty distinct-date index has no rows. -/
lemma eq_nil_of_availableDates_nil {df : List Row}
    (h : availableDates df = []) : df = [] := by
  have hperm := List.perm_insertionSort (· ≤ ·) (df.map Row.date).dedup
  rw [availableDates] at h
  rw [h] at hperm
  have hd : (df.map Row.date).dedup = [] := hperm.symm.eq_nil
  have hm : df.map Row.date = [] := by
    rwa [List.dedup_eq_nil] at hd
  simpa using hm

/-- Membership in the start-bound filter. -/
lemma mem_applyStartFilter {df : List Row} {aS : Option Nat} {r : Row} :
    r ∈ applyStartFilter df aS ↔
      r ∈ df ∧ ∀ a, aS = some a → a ≤ r.date := by
  cases aS with
  | none => simp [applyStartFilter]
  | some a => simp [applyStartFilter, List.mem_filter]

/-- Membership in the end-bound filter. -/
lemma mem_applyEndFilter {l : List Row} {aE : Option Nat} {r : Row} :
    r ∈ applyEndFilter l aE ↔
      r ∈ l ∧ ∀ b, aE = some b → r.date ≤ b := by
  cases aE with
  | none => simp [applyEndFilter]
  | some b => simp [applyEndFilter, List.mem_filter]

/-- Claim C10: a one-sided explicit date is ignored.  For any explicit
canonical `YYYY-MM-DD` date supplied on only one side (the other side
absent), `get_kline_data` does not take the range branch and performs the
same default count-driven fetch as when no dates are supplied at all (and no
symbolic post-fetch filtering is triggered, since no symbolic token is
present). -/
theorem claim_C10 (cal : List String) (now : Instant) (period : String)
    (s : String) (hs1 : trimQ (toLowerQ s) = s)
    (hs2 : isValidDateStr s = true) :
    select_fetch cal now period (some s) none =
      .ok (.byCount (periods_count period)) ∧
    select_fetch cal now period none (some s) =
      .ok (.byCount (periods_count period)) ∧
    select_fetch cal now period none none =
      .ok (.byCount (periods_count period)) := by
  have hst : s ≠ "today" := fun h => by
    rw [h] at hs2; exact absurd hs2 (by decide)
  have hsy : s ≠ "yesterday" := fun h => by
    rw [h] at hs2; exact absurd hs2 (by decide)
  refine ⟨?_, ?_, ?_⟩ <;>
    simp [select_fetch, parse_date_param, hs1, hst, hsy, hs2]

/-- Witness for claim C10 at a concrete explicit date. -/
theorem claim_C10_witness :
    select_fetch [] ⟨"2024-02-01", "2024-01-31", 3, 10, 0, 0⟩ "1d"
      (some "2024-01-15") none = .ok (.byCount (-1)) :=
  (claim_C10 [] ⟨"2024-02-01", "2024-01-31", 3, 10, 0, 0⟩ "1d"
    "2024-01-15" (by decide) (by decide)).1

/-- Claim C3: strategy selection.  With no dates the fetch is the default
count query for the period; with two canonical explicit dates it is the
range query with exactly those bounds; with a symbolic `today`/`yesterday`
token on either side it is the latest-N count query (the period's configured
count, or 1000 when that count is not positive); and the post-fetch filter
for a `today` start token keeps only rows whose date equals the resolved
TODAY date (the greatest date present in the fetched rows). -/
theorem claim_C3 (cal : List String) (now : Instant) (period : String) :
    (select_fetch cal now period none none =
      .ok (.byCount (periods_count period))) ∧
    (∀ s e : String,
      trimQ (toLowerQ s) = s → trimQ (toLowerQ e) = e →
      isValidDateStr s = true → isValidDateStr e = true →
      select_fetch cal now period (some s) (some e) = .ok (.rangeQ s e)) ∧
    (∀ (startIn endIn : Option String) (aS : Option String) (oS : Option Orig)
        (aE : Option String) (oE : Option Orig),
      parse_date_param cal now startIn = .ok (aS, oS) →
      parse_date_param cal now endIn = .ok (aE, oE) →
      (oS = some .today ∨ oS = some .yesterday ∨
        oE = some .today ∨ oE = some .yesterday) →
      select_fetch cal now period startIn endIn =
        .ok (.latestN (if 0 < periods_count period then periods_count period
          else 1000))) ∧
    (∀ (df : List Row) (origE : Option Orig) (r : Row),
      r ∈ filter_by_special_date df (some .today) origE →
      r.date = (availableDates df).getLastD 0) := by
  refine ⟨?_, ?_, ?_, ?_⟩
  · simp [select_fetch, parse_date_param]
  · intro s e hs1 he1 hs2 he2
    have hst : s ≠ "today" := fun h => by
      rw [h] at hs2; exact absurd hs2 (by decide)
    have hsy : s ≠ "yesterday" := fun h => by
      rw [h] at hs2; exact absurd hs2 (by decide)
    have het : e ≠ "today" := fun h => by
      rw [h] at he2; exact absurd he2 (by decide)
    have hey : e ≠ "yesterday" := fun h => by
      rw [h] at he2; exact absurd he2 (by decide)
    simp [select_fetch, parse_date_param, hs1, he1, hst, hsy, het, hey,
      hs2, he2]
  · intro startIn endIn aS oS aE oE hps hpe hor
    simp only [select_fetch, hps, hpe]
    rw [if_pos hor]
  · intro df oE r hr
    by_cases hemp : (availableDates df).isEmpty
    · have hdf : df = [] :=
        eq_nil_of_availableDates_nil (List.isEmpty_iff.mp hemp)
      rw [filter_by_special_date, if_pos hemp, hdf] at hr
      cases hr
    · rw [filter_by_special_date, if_neg hemp] at hr
      cases hres : resolveSpecialBounds df (some Orig.today) oE with
      | none => simp [resolveSpecialBounds] at hres
      | some pair =>
        obtain ⟨aS, aE⟩ := pair
        rw [hres] at hr
        have haS : aS = some ((availableDates df).getLastD 0) := by
          simp [resolveSpecialBounds] at hres
          rw [List.getLastD_eq_getLast?]
          exact hres.1.symm
        have hr1 := (mem_applyEndFilter.mp hr).1
        obtain ⟨hrdf, hrge⟩ := mem_applyStartFilter.mp hr1
        have hge := hrge _ haS
        have hle := mem_le_getLastD (availableDates_sorted df)
          (mem_availableDates hrdf) 0
        exact le_antisymm hle hge

/-- Witness for claim C3: all three strategy branches and the filter clause
at concrete inputs (for the symbolic branch, the resolved TODAY date on the
concrete calendar drives a latest-N fetch of 1000 candles for `1d`). -/
theorem claim_C3_witness :
    select_fetch ["2025-01-06"] ⟨"2025-01-06", "2025-01-05", 0, 14, 0, 0⟩
      "1d" none none = .ok (.byCount (-1)) ∧
    select_fetch ["2025-01-06"] ⟨"2025-01-06", "2025-01-05", 0, 14, 0, 0⟩
      "1d" (some "2024-01-01") (some "2024-01-31") =
      .ok (.rangeQ "2024-01-01" "2024-01-31") ∧
    select_fetch ["2025-01-06"] ⟨"2025-01-06", "2025-01-05", 0, 14, 0, 0⟩
      "1d" (some "today") none = .ok (.latestN 1000) ∧
    ((⟨7, 0⟩ : Row) ∈
        filter_by_special_date [⟨6, 0⟩, ⟨7, 0⟩] (some .today) none →
      (7 : Nat) = (availableDates [⟨6, 0⟩, ⟨7, 0⟩]).getLastD 0) := by
  have h := claim_C3 ["2025-01-06"] ⟨"2025-01-06", "2025-01-05", 0, 14, 0, 0⟩
    "1d"
  refine ⟨h.1, ?_, ?_, ?_⟩
  · exact h.2.1 "2024-01-01" "2024-01-31" (by decide) (by decide)
      (by decide) (by decide)
  · have h3 := h.2.2.1 (some "today") none
      (some (get_latest_trading_date ["2025-01-06"]
        ⟨"2025-01-06", "2025-01-05", 0, 14, 0, 0⟩)) (some Orig.today)
      none none rfl rfl (Or.inl rfl)
    simpa using h3
  · intro hmem
    exact h.2.2.2 [⟨6, 0⟩, ⟨7, 0⟩] none ⟨7, 0⟩ hmem

/-- Counterexample for claim C8: when `yesterday` is requested as the end
token only and the fetched rows carry a single distinct date, the filter
does not return an empty result — the unresolvable end bound is silently
dropped and the row survives. -/
theorem claim_C8_counterexample :
    filter_by_special_date [⟨5, 0⟩] none (some .yesterday) = [⟨5, 0⟩] ∧
    filter_by_special_date [⟨5, 0⟩] none (some .yesterday) ≠ [] := by
  refine ⟨?_, ?_⟩ <;> decide

/-- Claim C8, amended.  The post-fetch filter maps a `today` token to
`available_dates[-1]` and a `yesterday` token to `available_dates[-2]`: with
fewer than two distinct dates a `yesterday` START token yields the empty row
set (column structure kept, no exception — the filter is total), while a
`yesterday` END token with insufficient history is silently dropped rather
than emptying the result; with enough history, filtering start=end=yesterday
keeps exactly the rows dated `available_dates[-2]`, and start=end=today
keeps exactly the rows dated `available_dates[-1]`. -/
theorem claim_C8_amended :
    (∀ (df : List Row) (origE : Option Orig),
      (availableDates df).length < 2 →
      filter_by_special_date df (some .yesterday) origE = []) ∧
    (∀ (df : List Row) (r : Row), 2 ≤ (availableDates df).length →
      (r ∈ filter_by_special_date df (some .yesterday) (some .yesterday) ↔
        r ∈ df ∧ r.date = (availableDates df).getD
          ((availableDates df).length - 2) 0)) ∧
    (∀ (df : List Row) (r : Row), ¬ (availableDates df).isEmpty →
      (r ∈ filter_by_special_date df (some .today) (some .today) ↔
        r ∈ df ∧ r.date = (availableDates df).getLastD 0)) := by
  refine ⟨?_, ?_, ?_⟩
  · intro df origE hlen
    by_cases hemp : (availableDates df).isEmpty
    · rw [filter_by_special_date, if_pos hemp]
      exact eq_nil_of_availableDates_nil (List.isEmpty_iff.mp hemp)
    · rw [filter_by_special_date, if_neg hemp]
      have hres : resolveSpecialBounds df (some .yesterday) origE = none := by
        simp only [resolveSpecialBounds]
        rw [if_neg (by omega)]
      rw [hres]
  · intro df r hlen
    have hemp : ¬ (availableDates df).isEmpty = true := by
      intro h
      rw [List.isEmpty_iff.mp h] at hlen
      simp at hlen
    rw [filter_by_special_date, if_neg hemp]
    have hres : resolveSpecialBounds df (some .yesterday) (some .yesterday) =
        some (some ((availableDates df).getD
            ((availableDates df).length - 2) 0),
          some ((availableDates df).getD
            ((availableDates df).length - 2) 0)) := by
      simp only [resolveSpecialBounds]
      rw [if_pos hlen]
    rw [hres]
    constructor
    · intro h
      obtain ⟨h1, h2⟩ := mem_applyEndFilter.mp h
      obtain ⟨h3, h4⟩ := mem_applyStartFilter.mp h1
      exact ⟨h3, le_antisymm (h2 _ rfl) (h4 _ rfl)⟩
    · rintro ⟨h1, h2⟩
      refine mem_applyEndFilter.mpr ⟨mem_applyStartFilter.mpr ⟨h1, ?_⟩, ?_⟩
      · intro a ha
        injection ha with h5
        omega
      · intro b hb
        injection hb with h5
        omega
  · intro df r hemp
    rw [filter_by_special_date, if_neg hemp]
    have hres : resolveSpecialBounds df (some .today) (some .today) =
        some (some ((availableDates df).getLastD 0),
          some ((availableDates df).getLastD 0)) := rfl
    rw [hres]
    constructor
    · intro h
      obtain ⟨h1, h2⟩ := mem_applyEndFilter.mp h
      obtain ⟨h3, h4⟩ := mem_applyStartFilter.mp h1
      exact ⟨h3, le_antisymm (h2 _ rfl) (h4 _ rfl)⟩
    · rintro ⟨h1, h2⟩
      refine mem_applyEndFilter.mpr ⟨mem_applyStartFilter.mpr ⟨h1, ?_⟩, ?_⟩
      · intro a ha
        injection ha with h5
        omega
      · intro b hb
        injection hb with h5
        omega

/-- Witness for the amended claim C8: a single-date row set with a
`yesterday` start token empties; a two-date row set with today tokens keeps
the row dated with the greatest present date. -/
theorem claim_C8_witness :
    filter_by_special_date [⟨5, 0⟩] (some .yesterday) none = [] ∧
    ((⟨5, 1⟩ : Row) ∈
        filter_by_special_date [⟨4, 0⟩, ⟨5, 1⟩] (some .today) (some .today) ↔
      (⟨5, 1⟩ : Row) ∈ [(⟨4, 0⟩ : Row), ⟨5, 1⟩] ∧
        (5 : Nat) = (availableDates [⟨4, 0⟩, ⟨5, 1⟩]).getLastD 0) := by
  constructor
  · exact claim_C8_amended.1 [⟨5, 0⟩] none (by decide)
  · exact claim_C8_amended.2.2 [⟨4, 0⟩, ⟨5, 1⟩] ⟨5, 1⟩ (by decide)

/-- Counterexample for claim C1: with a valid symbol, one period and
real-time requested, a kline task that completes and a real-time task that
raises, `perform_instant_update` reports failure with no candle previews —
the raised exception is re-raised by `fut.result()` and caught by the outer
handler, instead of being contained. -/
theorem claim_C1_counterexample :
    result_success (perform_instant_update ⟨fun _ => [1]⟩ "600689.SH" "front"
      (some ["1d"]) true (.ok ()) (.error "network error") false) = false ∧
    result_preview (perform_instant_update ⟨fun _ => [1]⟩ "600689.SH" "front"
      (some ["1d"]) true (.ok ()) (.error "network error") false) = [] :=
  ⟨rfl, rfl⟩

/-- Claim C1, amended.  With a valid symbol, a nonempty period list and
real-time included: if either sub-task raises, the returned result is marked
failed and the candle previews are left empty (regardless of which task
completes first); the result is marked successful — with populated previews
and whatever quote the real-time task produced — exactly when neither
sub-task raises (a real-time task returning no quote is absence, not
failure). -/
theorem claim_C1_amended (env : IEnv) (sc dt n : String)
    (hn : normalize_stock_code sc = .ok n) (ps : List String) (hps : ps ≠ [])
    (ko : Except String Unit) (ro : Except String (Option RTQuote))
    (rf : Bool) :
    ((∃ e, ko = .error e) ∨ (∃ e, ro = .error e) →
      result_success (perform_instant_update env sc dt (some ps) true ko ro rf)
        = false ∧
      result_preview (perform_instant_update env sc dt (some ps) true ko ro rf)
        = []) ∧
    (∀ q : Option RTQuote, ko = .ok () → ro = .ok q →
      result_success (perform_instant_update env sc dt (some ps) true ko ro rf)
        = true ∧
      result_rtdata (perform_instant_update env sc dt (some ps) true ko ro rf)
        = q ∧
      result_preview (perform_instant_update env sc dt (some ps) true ko ro rf)
        = ps.map (fun p =>
            (p, env.readPreview (_expected_kline_filename n p dt)))) := by
  have hpe : ps.isEmpty = false := by simpa [List.isEmpty_iff] using hps
  constructor
  · rintro (⟨e, rfl⟩ | ⟨e, rfl⟩)
    · cases ro with
      | error e2 =>
        cases rf <;>
          simp [perform_instant_update, hn, hpe, aggregate_futures,
            result_success, result_preview, Except.map, List.foldl]
      | ok q =>
        cases q <;> cases rf <;>
          simp [perform_instant_update, hn, hpe, aggregate_futures,
            result_success, result_preview, Except.map, List.foldl]
    · cases ko <;> cases rf <;>
        simp [perform_instant_update, hn, hpe, aggregate_futures,
          result_success, result_preview, Except.map, List.foldl]
  · rintro q rfl rfl
    cases rf <;> cases q <;>
      simp [perform_instant_update, hn, hpe, aggregate_futures,
        result_success, result_preview, result_rtdata, Except.map, List.foldl]

/-- Witness for the amended claim C1: concrete success and failure runs. -/
theorem claim_C1_witness :
    result_success (perform_instant_update ⟨fun _ => [1]⟩ "600689.SH" "front"
      (some ["1d"]) true (.error "kline boom") (.ok none) true) = false ∧
    result_success (perform_instant_update ⟨fun _ => [1]⟩ "600689.SH" "front"
      (some ["1d"]) true (.ok ()) (.ok (some ⟨1234⟩)) false) = true ∧
    result_rtdata (perform_instant_update ⟨fun _ => [1]⟩ "600689.SH" "front"
      (some ["1d"]) true (.ok ()) (.ok (some ⟨1234⟩)) false) =
      some ⟨1234⟩ := by
  have h1 := claim_C1_amended ⟨fun _ => [1]⟩ "600689.SH" "front" "600689.SH"
    rfl ["1d"] (by decide) (.error "kline boom") (.ok none) true
  have h2 := claim_C1_amended ⟨fun _ => [1]⟩ "600689.SH" "front" "600689.SH"
    rfl ["1d"] (by decide) (.ok ()) (.ok (some ⟨1234⟩)) false
  exact ⟨(h1.1 (Or.inl ⟨"kline boom", rfl⟩)).1,
    (h2.2 (some ⟨1234⟩) rfl rfl).1, (h2.2 (some ⟨1234⟩) rfl rfl).2.1⟩

end QMT
